import Mathlib

/-!
Verification of the agent streaming loop of `src/react_langfuse_pipe.py`
(repository OWUI-ReAct).

The embedding models the observable behavior of `Pipe.pipe` (lines 161-249):
the task-marker dispatch, the `extract_event_info` helper (lines 28-36), and,
for the tools path, the event loop over `graph.astream_events` (lines 221-247)
followed by the reconciliation loop over `started_tools` (lines 248-249).

Python specifics captured by the model:
  - `__event_emitter__` may be absent (`None`); `send_status` / `send_citation`
    (lines 47-76) are silent no-ops in that case, and otherwise `await` the
    emitter, whose exception propagates and aborts the async generator.
    An emitter is modelled by its captured closure cells (inspected only by
    `extract_event_info`) together with a predicate saying which awaited
    calls succeed.
  - `started_tools` is a set: `add` is idempotent, `remove` raises `KeyError`
    when the element is missing (line 247), which aborts the generator.
  - f-strings are modelled by string concatenation; the apostrophe character
    is written via `Char.ofNat 39`.
-/

namespace ReactPipe

/-- The apostrophe character used in the f-string messages of the source. -/
def apos : Char := Char.ofNat 39

/-- One-character string holding an apostrophe. -/
def aposStr : String := String.singleton apos

/-- True when the string contains no apostrophe (used to state the
message-disambiguation hypotheses). -/
def noApos (s : String) : Bool := s.data.all (fun c => !(c == apos))

/-- Events of `graph.astream_events` as dispatched by the loop at
lines 228-247: `kind == "on_chat_model_stream"` carries an optional chunk
content (the `"chunk" in data` test), `on_tool_start` / `on_tool_end` carry
`event["name"]` (and for ends the stringified `data.get("input")` /
`data.get("output")`); every other kind is `other`. -/
inductive StreamEvent where
  | textDelta (chunk : Option String)
  | toolStart (name : String)
  | toolEnd (name : String) (input : String) (output : String)
  | other
deriving DecidableEq, Repr

/-- Observable items produced by one turn: text fragments yielded by the
generator, and the status / citation calls handed to the notifier helpers
(`send_status`, `send_citation`). -/
inductive OutItem where
  | text (content : String)
  | status (message : String) (done : Bool)
  | citation (url : String) (title : String) (content : String)
deriving DecidableEq, Repr

/-- Ways the turn's generator can abort: an exception raised by the awaited
`__event_emitter__`, or the `KeyError` of `started_tools.remove` (line 247). -/
inductive PipeError where
  | emitterError
  | keyError (name : String)
deriving DecidableEq, Repr

/-- Renders `f"Running tool {name}"` (line 236). -/
def runningMsg (name : String) : String := "Running tool " ++ name

/-- Renders `f"Tool '{name}' returned {output}"` (line 241). -/
def returnedMsg (name output : String) : String :=
  "Tool " ++ aposStr ++ name ++ aposStr ++ " returned " ++ output

/-- Renders `f"Tool '{name}' failed."` (line 249). -/
def failedMsg (name : String) : String :=
  "Tool " ++ aposStr ++ name ++ aposStr ++ " failed."

/-- Renders `f"Tool call {num_tool_calls}"` (line 243). -/
def callUrl (k : Nat) : String := "Tool call " ++ toString k

/-- Renders `f"Tool '{name}' with inputs {input} returned {output}"`
(line 245). -/
def citationBody (name input output : String) : String :=
  "Tool " ++ aposStr ++ name ++ aposStr ++ " with inputs " ++ input
    ++ " returned " ++ output

/-- A value captured in one cell of the emitter's `__closure__`: either a
dict (modelled as an association list of string entries) or anything else. -/
inductive CellVal where
  | dictVal (entries : List (String × String))
  | otherVal
deriving DecidableEq, Repr

/-- Python `dict.get`: the value at the first binding of the key, if any. -/
def dictGet (d : List (String × String)) (k : String) : Option String :=
  (d.find? (fun p => p.1 == k)).map (fun p => p.2)

/-- The host's `__event_emitter__`: its `__closure__` (if it is a closure)
and, for each awaited call, whether the call returns normally (`true`) or
raises (`false`). -/
structure Emitter where
  closure : Option (List CellVal)
  emitOk : OutItem → Bool

/-- Model of `extract_event_info` (lines 28-36): scan the closure cells for
the first dict and return its `"chat_id"` and `"message_id"` entries;
`(None, None)` when the emitter is absent, is not a closure, or captures no
dict. -/
def extractLoop : List CellVal → Option String × Option String
  | [] => (none, none)
  | CellVal.dictVal d :: _ => (dictGet d "chat_id", dictGet d "message_id")
  | CellVal.otherVal :: cs => extractLoop cs

/-- Top level of `extract_event_info`: the `not event_emitter or not
event_emitter.__closure__` guard followed by the cell scan. -/
def extract_event_info : Option Emitter → Option String × Option String
  | none => (none, none)
  | some em =>
    match em.closure with
    | none => (none, none)
    | some cells => extractLoop cells

/-- Whether a notifier call returns normally: an absent emitter makes
`send_status` / `send_citation` silent no-ops, a present one is awaited and
may raise. -/
def notifyStep (e : Option Emitter) (c : OutItem) : Bool :=
  match e with
  | none => true
  | some em => em.emitOk c

/-- Python `set.add`: insert the name unless already present. -/
def setAdd (s : List String) (n : String) : List String :=
  if n ∈ s then s else s ++ [n]

/-- Result of the event loop: items produced so far, the `num_tool_calls`
counter, the `started_tools` set, and the pending exception if the loop
aborted. -/
structure LoopResult where
  trace : List OutItem
  num : Nat
  started : List String
  err : Option PipeError
deriving Repr

/-- The `async for event in graph.astream_events(...)` loop (lines 223-247),
one constructor per dispatch branch:
  - `on_chat_model_stream`: yield the chunk content when present and
    non-empty (line 231's truthiness test);
  - `on_tool_start`: yield `"\n"`, send the running status, add the name to
    `started_tools`;
  - `on_tool_end`: bump `num_tool_calls`, send the returned status, send the
    citation, then `started_tools.remove(name)` which raises `KeyError` when
    the name is absent;
  - anything else: fall through.
A raising notifier call or the `KeyError` aborts the loop with the pending
exception; items already produced stand. -/
def loopEvents (e : Option Emitter) :
    List StreamEvent → Nat → List String → LoopResult
  | [], n, s => ⟨[], n, s, none⟩
  | StreamEvent.textDelta c :: r, n, s =>
    let out := match c with
      | none => []
      | some str => if str = "" then [] else [OutItem.text str]
    let rest := loopEvents e r n s
    ⟨out ++ rest.trace, rest.num, rest.started, rest.err⟩
  | StreamEvent.toolStart name :: r, n, s =>
    let c := OutItem.status (runningMsg name) false
    if notifyStep e c then
      let rest := loopEvents e r n (setAdd s name)
      ⟨OutItem.text "\n" :: c :: rest.trace, rest.num, rest.started, rest.err⟩
    else
      ⟨[OutItem.text "\n", c], n, s, some PipeError.emitterError⟩
  | StreamEvent.toolEnd name i o :: r, n, s =>
    let c1 := OutItem.status (returnedMsg name o) true
    let c2 := OutItem.citation (callUrl (n + 1)) name (citationBody name i o)
    if notifyStep e c1 then
      if notifyStep e c2 then
        if name ∈ s then
          let rest := loopEvents e r (n + 1) (s.erase name)
          ⟨c1 :: c2 :: rest.trace, rest.num, rest.started, rest.err⟩
        else
          ⟨[c1, c2], n + 1, s, some (PipeError.keyError name)⟩
      else
        ⟨[c1, c2], n + 1, s, some PipeError.emitterError⟩
    else
      ⟨[c1], n + 1, s, some PipeError.emitterError⟩
  | StreamEvent.other :: r, n, s => loopEvents e r n s

/-- The reconciliation loop `for name in started_tools: await send_status(
f"Tool '{name}' failed.", True)` (lines 248-249); a raising emitter aborts
it as well. -/
def reconcile (e : Option Emitter) : List String → List OutItem × Option PipeError
  | [] => ([], none)
  | name :: rest =>
    let c := OutItem.status (failedMsg name) true
    if notifyStep e c then
      let r := reconcile e rest
      (c :: r.1, r.2)
    else
      ([c], some PipeError.emitterError)

/-- The whole tools path of `Pipe.pipe` (lines 221-249): run the event loop
from `num_tool_calls = 0` and an empty `started_tools`, then — only when the
loop finished without an exception — run the reconciliation loop. -/
def toolsPhase (e : Option Emitter) (events : List StreamEvent) :
    List OutItem × Option PipeError :=
  let r := loopEvents e events 0 []
  match r.err with
  | some err => (r.trace, some err)
  | none =>
    let rec2 := reconcile e r.started
    (r.trace ++ rec2.1, rec2.2)

/-- Inputs of one `Pipe.pipe` call. The model-backend construction and valve
setup (lines 173-187) are excluded collaborators; the backend's behavior is
abstracted by `titleText` (the blocking `model.invoke` reply of the title
path), `deltas` (the `model.astream` chunk contents of the no-tools path)
and `events` (the `graph.astream_events` stream of the tools path). -/
structure PipeArgs where
  task : Option String
  emitter : Option Emitter
  hasTools : Bool
  titleText : String
  deltas : List String
  events : List StreamEvent
  messages : List (String × String)
  modelId : String

/-- Result of one `Pipe.pipe` call: the items produced, the `run_id` passed
to the streaming backend invocation (`none` when no streaming invocation was
made), and the pending exception if the generator aborted. -/
structure PipeResult where
  out : List OutItem
  runId : Option (Option String)
  err : Option PipeError
deriving Repr

/-- `Pipe.pipe` (lines 161-249): extract the correlation id, return at once
on the `function_calling` task (line 170), yield the single blocking reply on
`title_generation` (lines 189-193), stream the raw deltas when no tools are
supplied (lines 195-203), and otherwise run the tools path; both streaming
invocations are tagged with `run_id` equal to the first component of
`extract_event_info` (lines 169, 198, 226). -/
def pipe (a : PipeArgs) : PipeResult :=
  let mid := (extract_event_info a.emitter).1
  if a.task = some "function_calling" then
    ⟨[], none, none⟩
  else if a.task = some "title_generation" then
    ⟨[OutItem.text a.titleText], none, none⟩
  else if a.hasTools = false then
    ⟨a.deltas.map OutItem.text, some mid, none⟩
  else
    let r := toolsPhase a.emitter a.events
    ⟨r.1, some mid, r.2⟩

/-- Engine-level well-formedness of an event stream relative to the current
`started_tools` set: a tool only starts while not already active, and only
ends while active (the engine contract of spec section 9: `ToolStarted`
precedes the matching terminal event, names of concurrent calls are unique). -/
def wfB : List String → List StreamEvent → Bool
  | _, [] => true
  | s, StreamEvent.textDelta _ :: r => wfB s r
  | s, StreamEvent.other :: r => wfB s r
  | s, StreamEvent.toolStart name :: r =>
    !(decide (name ∈ s)) && wfB (s ++ [name]) r
  | s, StreamEvent.toolEnd name _ _ :: r =>
    decide (name ∈ s) && wfB (s.erase name) r

/-- No awaited notifier call raises (an absent emitter never raises). -/
def noFail (e : Option Emitter) : Prop := ∀ c, notifyStep e c = true

/-- Explicit form of the items the event loop produces on a failure-free,
well-formed run, starting from `num_tool_calls = n`. -/
def loopOut : List StreamEvent → Nat → List OutItem
  | [], _ => []
  | StreamEvent.textDelta c :: r, n =>
    (match c with
      | none => []
      | some str => if str = "" then [] else [OutItem.text str]) ++ loopOut r n
  | StreamEvent.toolStart name :: r, n =>
    OutItem.text "\n" :: OutItem.status (runningMsg name) false :: loopOut r n
  | StreamEvent.toolEnd name i o :: r, n =>
    OutItem.status (returnedMsg name o) true ::
      OutItem.citation (callUrl (n + 1)) name (citationBody name i o) ::
        loopOut r (n + 1)
  | StreamEvent.other :: r, n => loopOut r n

/-- The `started_tools` set left by the loop after consuming the events. -/
def finalStarted : List String → List StreamEvent → List String
  | s, [] => s
  | s, StreamEvent.toolStart name :: r => finalStarted (setAdd s name) r
  | s, StreamEvent.toolEnd name _ _ :: r => finalStarted (s.erase name) r
  | s, _ :: r => finalStarted s r

/-- Items produced by a failure-free reconciliation loop. -/
def reconOut (s : List String) : List OutItem :=
  s.map (fun name => OutItem.status (failedMsg name) true)

/-- Total number of `on_tool_end` events. -/
def endsCount : List StreamEvent → Nat
  | [] => 0
  | StreamEvent.toolEnd _ _ _ :: r => endsCount r + 1
  | _ :: r => endsCount r

/-- Number of `on_tool_start` events carrying the given name. -/
def startCount (name : String) : List StreamEvent → Nat
  | [] => 0
  | StreamEvent.toolStart m :: r =>
    (if m = name then 1 else 0) + startCount name r
  | _ :: r => startCount name r

/-- Number of `on_tool_end` events carrying the given name. -/
def endCountN (name : String) : List StreamEvent → Nat
  | [] => 0
  | StreamEvent.toolEnd m _ _ :: r =>
    (if m = name then 1 else 0) + endCountN name r
  | _ :: r => endCountN name r

/-- Tool names carried by the lifecycle events of the stream. -/
def namesOf : List StreamEvent → List String
  | [] => []
  | StreamEvent.toolStart name :: r => name :: namesOf r
  | StreamEvent.toolEnd name _ _ :: r => name :: namesOf r
  | _ :: r => namesOf r

/-- Every string of the list is apostrophe-free. -/
def allNoApos (l : List String) : Bool := l.all noApos

/-- Leading part shared by every `returnedMsg name _`. -/
def returnedHead (name : String) : String :=
  "Tool " ++ aposStr ++ name ++ aposStr ++ " returned "

/-- Whether an item is a terminal (`done=true`) status notification for the
given tool name: either its returned-message or its failed-message. -/
def isTerminalFor (name : String) : OutItem → Bool
  | OutItem.status m true =>
    (returnedHead name).data.isPrefixOf m.data || m == failedMsg name
  | _ => false

/-- Contents of every `on_chat_model_stream` chunk present in the stream,
including empty ones. -/
def deltaContents : List StreamEvent → List String
  | [] => []
  | StreamEvent.textDelta (some c) :: r => c :: deltaContents r
  | _ :: r => deltaContents r

/-- Contents of the non-empty `on_chat_model_stream` chunks, in order. -/
def nonEmptyDeltas : List StreamEvent → List String
  | [] => []
  | StreamEvent.textDelta (some c) :: r =>
    (if c = "" then [] else [c]) ++ nonEmptyDeltas r
  | _ :: r => nonEmptyDeltas r

/-- The text fragments the loop yields for the stream: each non-empty chunk
content in order, with a `"\n"` separator for each tool start. -/
def textBits : List StreamEvent → List String
  | [] => []
  | StreamEvent.textDelta (some c) :: r =>
    (if c = "" then [] else [c]) ++ textBits r
  | StreamEvent.toolStart _ :: r => "\n" :: textBits r
  | _ :: r => textBits r

/-- The text fragments of a trace, in order. -/
def yieldedTexts (tr : List OutItem) : List String :=
  tr.filterMap (fun i =>
    match i with
    | OutItem.text s => some s
    | _ => none)

/-- The citation items of a trace, in order, as (url, title, content). -/
def citsOf (tr : List OutItem) : List (String × String × String) :=
  tr.filterMap (fun i =>
    match i with
    | OutItem.citation u t c => some (u, t, c)
    | _ => none)

/-- The (name, input, output) triples of the `on_tool_end` events, in stream
order. -/
def endTriples : List StreamEvent → List (String × String × String)
  | [] => []
  | StreamEvent.toolEnd name i o :: r => (name, i, o) :: endTriples r
  | _ :: r => endTriples r

/-- The citations the spec prescribes for the given completions when `n`
tool calls completed earlier: the k-th completion (1-based, counted from
`n + 1`) is cited under source id `Tool call (n+k)`. -/
def withCallIdx (n : Nat) : List (String × String × String) →
    List (String × String × String)
  | [] => []
  | t :: r =>
    (callUrl (n + 1), t.1, citationBody t.1 t.2.1 t.2.2) :: withCallIdx (n + 1) r

/-- The first dict-valued cell of a closure. -/
def firstDict : List CellVal → Option (List (String × String))
  | [] => none
  | CellVal.dictVal d :: _ => some d
  | CellVal.otherVal :: cs => firstDict cs

/-- Concrete emitter used to exhibit a notifier failure at each call site:
it raises on every citation call and on every status call except the running
status of tool `w` and the returned status of tool `v`. -/
def probeEmitter : Emitter :=
  ⟨none, fun c =>
    match c with
    | OutItem.status m _ => m == runningMsg "w" || m == returnedMsg "v" "4"
    | _ => false⟩

/-- Written from the claim wording for C9: the `"chat_id"` entry of the first
dict-valued cell captured by the emitter, `none` when the emitter is absent
or has no closure. -/
def chatIdOfFirstDictCell : Option Emitter → Option String
  | none => none
  | some em =>
    match em.closure with
    | none => none
    | some cells => (firstDict cells).bind (fun d => dictGet d "chat_id")

lemma aposStr_data : aposStr.data = [apos] := rfl

lemma apos_split : ∀ (a : List Char) {b u v : List Char},
    a.all (fun c => !(c == apos)) = true →
    b.all (fun c => !(c == apos)) = true →
    a ++ apos :: u = b ++ apos :: v → a = b ∧ u = v := by
  intro a
  induction a with
  | nil =>
    intro b u v _ hb h
    cases b with
    | nil => simpa using h
    | cons x bs =>
      exfalso
      simp only [List.nil_append, List.cons_append, List.cons.injEq] at h
      have hx := (List.all_eq_true.mp hb) x (by simp)
      rw [← h.1] at hx
      simp at hx
  | cons x as ih =>
    intro b u v ha hb h
    cases b with
    | nil =>
      exfalso
      simp only [List.cons_append, List.nil_append, List.cons.injEq] at h
      have hx := (List.all_eq_true.mp ha) x (by simp)
      rw [h.1] at hx
      simp at hx
    | cons y bs =>
      simp only [List.cons_append, List.cons.injEq] at h
      have ha' : as.all (fun c => !(c == apos)) = true := by
        simp only [List.all_cons, Bool.and_eq_true] at ha
        exact ha.2
      have hb' : bs.all (fun c => !(c == apos)) = true := by
        simp only [List.all_cons, Bool.and_eq_true] at hb
        exact hb.2
      obtain ⟨h1, h2⟩ := ih ha' hb' h.2
      exact ⟨by rw [h.1, h1], h2⟩

lemma apos_split_pre {a b u v : List Char}
    (ha : a.all (fun c => !(c == apos)) = true)
    (hb : b.all (fun c => !(c == apos)) = true)
    (h : a ++ apos :: u <+: b ++ apos :: v) : a = b ∧ u <+: v := by
  obtain ⟨t, ht⟩ := h
  rw [List.append_assoc, List.cons_append] at ht
  obtain ⟨h1, h2⟩ := apos_split a ha hb ht
  exact ⟨h1, ⟨t, h2⟩⟩

lemma returnedMsg_data (name o : String) :
    (returnedMsg name o).data =
      "Tool ".data ++ apos :: (name.data ++ apos :: (" returned ".data ++ o.data)) := by
  simp [returnedMsg, String.data_append, aposStr_data]

lemma returnedHead_data (name : String) :
    (returnedHead name).data =
      "Tool ".data ++ apos :: (name.data ++ apos :: " returned ".data) := by
  simp [returnedHead, String.data_append, aposStr_data]

lemma failedMsg_data (name : String) :
    (failedMsg name).data =
      "Tool ".data ++ apos :: (name.data ++ apos :: " failed.".data) := by
  simp [failedMsg, String.data_append, aposStr_data]

lemma returned_ne_failed {M N o : String} (hM : noApos M = true)
    (hN : noApos N = true) : returnedMsg M o ≠ failedMsg N := by
  intro h
  have hd : (returnedMsg M o).data = (failedMsg N).data := by rw [h]
  rw [returnedMsg_data, failedMsg_data] at hd
  have hd2 := List.append_cancel_left hd
  obtain ⟨-, hrest⟩ := apos_split M.data hM hN (List.cons.inj hd2).2
  have hlen := congrArg List.length hrest
  rw [List.length_append] at hlen
  have h10 : (" returned ".data).length = 10 := by decide
  have h8 : (" failed.".data).length = 8 := by decide
  omega

lemma returnedHead_prefix_iff {M N o : String} (hM : noApos M = true)
    (hN : noApos N = true) :
    ((returnedHead N).data <+: (returnedMsg M o).data) ↔ N = M := by
  constructor
  · intro h
    rw [returnedHead_data, returnedMsg_data] at h
    rw [List.prefix_append_right_inj, List.cons_prefix_cons] at h
    obtain ⟨hNM, -⟩ := apos_split_pre hN hM h.2
    exact String.ext hNM
  · rintro rfl
    rw [returnedHead_data, returnedMsg_data]
    rw [List.prefix_append_right_inj, List.cons_prefix_cons]
    refine ⟨rfl, ?_⟩
    rw [List.prefix_append_right_inj, List.cons_prefix_cons]
    exact ⟨rfl, List.prefix_append _ _⟩

lemma returnedHead_not_prefix_failed {M N : String} (hM : noApos M = true)
    (hN : noApos N = true) :
    ¬ ((returnedHead N).data <+: (failedMsg M).data) := by
  intro h
  rw [returnedHead_data, failedMsg_data] at h
  rw [List.prefix_append_right_inj, List.cons_prefix_cons] at h
  obtain ⟨-, hpre⟩ := apos_split_pre hN hM h.2
  exact absurd hpre (by decide)

lemma failedMsg_inj {M N : String} : failedMsg M = failedMsg N ↔ M = N := by
  constructor
  · intro h
    have hd : (failedMsg M).data = (failedMsg N).data := by rw [h]
    rw [failedMsg_data, failedMsg_data] at hd
    have hd2 : M.data ++ (apos :: " failed.".data)
        = N.data ++ (apos :: " failed.".data) :=
      (List.cons.inj (List.append_cancel_left hd)).2
    exact String.ext (List.append_cancel_right hd2)
  · rintro rfl; rfl

lemma isTerminalFor_returned {M N o : String} (hM : noApos M = true)
    (hN : noApos N = true) :
    (isTerminalFor N (OutItem.status (returnedMsg M o) true) = true) ↔ M = N := by
  simp only [isTerminalFor, Bool.or_eq_true, List.isPrefixOf_iff_prefix, beq_iff_eq]
  constructor
  · rintro (h | h)
    · exact ((returnedHead_prefix_iff hM hN).mp h).symm
    · exact absurd h (returned_ne_failed hM hN)
  · rintro rfl
    exact Or.inl ((returnedHead_prefix_iff hM hM).mpr rfl)

lemma isTerminalFor_failed {M N : String} (hM : noApos M = true)
    (hN : noApos N = true) :
    (isTerminalFor N (OutItem.status (failedMsg M) true) = true) ↔ M = N := by
  simp only [isTerminalFor, Bool.or_eq_true, List.isPrefixOf_iff_prefix, beq_iff_eq]
  constructor
  · rintro (h | h)
    · exact absurd h (returnedHead_not_prefix_failed hM hN)
    · exact failedMsg_inj.mp h
  · rintro rfl
    exact Or.inr rfl

lemma isTerminalFor_text (name s : String) :
    isTerminalFor name (OutItem.text s) = false := rfl

lemma isTerminalFor_status_false (name m : String) :
    isTerminalFor name (OutItem.status m false) = false := rfl

lemma isTerminalFor_citation (name u t c : String) :
    isTerminalFor name (OutItem.citation u t c) = false := rfl


lemma mem_noApos {l : List String} {x : String}
    (h : allNoApos l = true) (hx : x ∈ l) : noApos x = true :=
  (List.all_eq_true.mp h) x hx

lemma reconcile_eq (e : Option Emitter) (hok : noFail e) :
    ∀ s : List String, reconcile e s = (reconOut s, none) := by
  intro s
  induction s with
  | nil => rfl
  | cons name rest ih =>
    simp only [reconcile, hok _, if_true, ih, reconOut, List.map_cons]

lemma loopEvents_eq (e : Option Emitter) (hok : noFail e) :
    ∀ (evs : List StreamEvent) (n : Nat) (s : List String), wfB s evs = true →
      loopEvents e evs n s =
        ⟨loopOut evs n, n + endsCount evs, finalStarted s evs, none⟩ := by
  intro evs
  induction evs with
  | nil =>
    intro n s _
    simp [loopEvents, loopOut, endsCount, finalStarted]
  | cons ev r ih =>
    intro n s hwf
    cases ev with
    | textDelta c =>
      simp only [wfB] at hwf
      simp [loopEvents, loopOut, endsCount, finalStarted, ih n s hwf]
    | toolStart name =>
      simp only [wfB, Bool.and_eq_true, Bool.not_eq_true',
        decide_eq_false_iff_not] at hwf
      have hadd : setAdd s name = s ++ [name] := by simp [setAdd, hwf.1]
      simp [loopEvents, hok _, loopOut, endsCount, finalStarted, hadd,
        ih n (s ++ [name]) hwf.2]
    | toolEnd name i o =>
      simp only [wfB, Bool.and_eq_true, decide_eq_true_eq] at hwf
      simp only [loopEvents, hok _, if_true, hwf.1,
        ih (n + 1) (s.erase name) hwf.2]
      simp [loopOut, endsCount, finalStarted]
      omega
    | other =>
      simp only [wfB] at hwf
      simp [loopEvents, loopOut, endsCount, finalStarted, ih n s hwf]

lemma toolsPhase_eq (e : Option Emitter) (hok : noFail e)
    (evs : List StreamEvent) (hwf : wfB [] evs = true) :
    toolsPhase e evs =
      (loopOut evs 0 ++ reconOut (finalStarted [] evs), none) := by
  simp [toolsPhase, loopEvents_eq e hok evs 0 [] hwf, reconcile_eq e hok]

lemma isTerminalFor_returned_self {M o : String} (hM : noApos M = true) :
    isTerminalFor M (OutItem.status (returnedMsg M o) true) = true :=
  (isTerminalFor_returned hM hM).mpr rfl

lemma isTerminalFor_returned_ne {M N o : String} (hM : noApos M = true)
    (hN : noApos N = true) (h : M ≠ N) :
    isTerminalFor N (OutItem.status (returnedMsg M o) true) = false := by
  cases hcase : isTerminalFor N (OutItem.status (returnedMsg M o) true) with
  | false => rfl
  | true => exact absurd ((isTerminalFor_returned hM hN).mp hcase) h

lemma isTerminalFor_failed_self {M : String} (hM : noApos M = true) :
    isTerminalFor M (OutItem.status (failedMsg M) true) = true :=
  (isTerminalFor_failed hM hM).mpr rfl

lemma isTerminalFor_failed_ne {M N : String} (hM : noApos M = true)
    (hN : noApos N = true) (h : M ≠ N) :
    isTerminalFor N (OutItem.status (failedMsg M) true) = false := by
  cases hcase : isTerminalFor N (OutItem.status (failedMsg M) true) with
  | false => rfl
  | true => exact absurd ((isTerminalFor_failed hM hN).mp hcase) h

lemma countP_reconOut (N : String) :
    ∀ s : List String, s.Nodup → allNoApos s = true → noApos N = true →
      List.countP (isTerminalFor N) (reconOut s) = if N ∈ s then 1 else 0 := by
  intro s
  induction s with
  | nil => simp [reconOut]
  | cons M rest ih =>
    intro hnd hna hN
    have hM : noApos M = true := mem_noApos hna (by simp)
    have hrest : allNoApos rest = true := by
      simp only [allNoApos, List.all_cons, Bool.and_eq_true] at hna
      exact hna.2
    rw [List.nodup_cons] at hnd
    simp only [reconOut, List.map_cons, List.countP_cons]
    rw [show List.countP (isTerminalFor N)
        (List.map (fun name => OutItem.status (failedMsg name) true) rest)
      = if N ∈ rest then 1 else 0 from ih hnd.2 hrest hN]
    by_cases hMN : M = N
    · subst hMN
      simp [isTerminalFor_failed_self hM, hnd.1]
    · simp [isTerminalFor_failed_ne hM hN hMN, Ne.symm hMN]

lemma countP_terminal_loop (N : String) :
    ∀ (evs : List StreamEvent) (n : Nat) (s : List String),
      wfB s evs = true → s.Nodup →
      allNoApos (namesOf evs) = true → allNoApos s = true → noApos N = true →
      List.countP (isTerminalFor N)
          (loopOut evs n ++ reconOut (finalStarted s evs))
        = startCount N evs + (if N ∈ s then 1 else 0) := by
  intro evs
  induction evs with
  | nil =>
    intro n s _ hnd _ hna hN
    simp only [loopOut, finalStarted, List.nil_append, startCount]
    rw [countP_reconOut N s hnd hna hN]
    omega
  | cons ev r ih =>
    intro n s hwf hnd hnames hna hN
    cases ev with
    | textDelta c =>
      simp only [wfB] at hwf
      simp only [namesOf] at hnames
      have h0 := ih n s hwf hnd hnames hna hN
      simp only [loopOut, startCount, finalStarted]
      cases c with
      | none => simpa using h0
      | some str =>
        by_cases hstr : str = ""
        · simpa [hstr] using h0
        · simp only [if_neg hstr, List.singleton_append, List.cons_append,
            List.countP_cons, isTerminalFor_text]
          simpa using h0
    | toolStart name =>
      simp only [wfB, Bool.and_eq_true, Bool.not_eq_true',
        decide_eq_false_iff_not] at hwf
      simp only [namesOf, allNoApos, List.all_cons, Bool.and_eq_true] at hnames
      have hname : noApos name = true := hnames.1
      have hnames' : allNoApos (namesOf r) = true := hnames.2
      have hadd : setAdd s name = s ++ [name] := by simp [setAdd, hwf.1]
      have hnd' : (s ++ [name]).Nodup := by
        rw [List.nodup_append]
        refine ⟨hnd, List.nodup_singleton name, ?_⟩
        intro x hx hx'
        simp only [List.mem_singleton] at hx'
        subst hx'
        exact hwf.1 hx
      have hna' : allNoApos (s ++ [name]) = true := by
        simp only [allNoApos, List.all_append, List.all_cons,
          Bool.and_eq_true] at *
        exact ⟨hna, hname, rfl⟩
      simp only [loopOut, startCount, finalStarted, hadd, List.cons_append,
        List.countP_cons, isTerminalFor_text, isTerminalFor_status_false]
      rw [show List.countP (isTerminalFor N)
          (loopOut r n ++ reconOut (finalStarted (s ++ [name]) r))
        = startCount N r + (if N ∈ s ++ [name] then 1 else 0) from
        ih n (s ++ [name]) hwf.2 hnd' hnames' hna' hN]
      by_cases hNn : N = name
      · subst hNn
        have h1 : N ∈ s ++ [N] := by simp
        have h2 : N ∉ s := hwf.1
        simp [if_pos h1, if_neg h2]
        omega
      · have h1 : (N ∈ s ++ [name]) ↔ (N ∈ s) := by simp [List.mem_append, hNn]
        by_cases hNs : N ∈ s
        · simp only [if_pos (h1.mpr hNs), if_pos hNs, if_neg (Ne.symm hNn),
            Bool.false_eq_true, if_false]
          omega
        · simp only [if_neg (fun h => hNs (h1.mp h)), if_neg hNs,
            if_neg (Ne.symm hNn), Bool.false_eq_true, if_false]
          omega
    | toolEnd name i o =>
      simp only [wfB, Bool.and_eq_true, decide_eq_true_eq] at hwf
      simp only [namesOf, allNoApos, List.all_cons, Bool.and_eq_true] at hnames
      have hname : noApos name = true := hnames.1
      have hnames' : allNoApos (namesOf r) = true := hnames.2
      have hnd' : (s.erase name).Nodup := hnd.erase name
      have hna' : allNoApos (s.erase name) = true := by
        rw [allNoApos, List.all_eq_true]
        intro x hx
        exact mem_noApos hna (List.mem_of_mem_erase hx)
      simp only [loopOut, startCount, finalStarted, List.cons_append,
        List.countP_cons, isTerminalFor_citation]
      rw [show List.countP (isTerminalFor N)
          (loopOut r (n + 1) ++ reconOut (finalStarted (s.erase name) r))
        = startCount N r + (if N ∈ s.erase name then 1 else 0) from
        ih (n + 1) (s.erase name) hwf.2 hnd' hnames' hna' hN]
      by_cases hnN : name = N
      · subst hnN
        have hmem : name ∉ s.erase name := by
          intro hcon
          exact ((hnd.mem_erase_iff).mp hcon).1 rfl
        simp [isTerminalFor_returned_self hname, hmem, hwf.1]
      · have hmem : (N ∈ s.erase name) ↔ (N ∈ s) :=
          List.mem_erase_of_ne (Ne.symm hnN)
        by_cases hNs : N ∈ s
        · simp only [isTerminalFor_returned_ne hname hN hnN,
            if_pos (hmem.mpr hNs), if_pos hNs]
          simp
        · simp only [isTerminalFor_returned_ne hname hN hnN,
            if_neg (fun h => hNs (hmem.mp h)), if_neg hNs]
          simp
    | other =>
      simp only [wfB] at hwf
      simp only [namesOf] at hnames
      simp only [loopOut, startCount, finalStarted]
      exact ih n s hwf hnd hnames hna hN

lemma loopOut_append : ∀ (a b : List StreamEvent) (n : Nat),
    loopOut (a ++ b) n = loopOut a n ++ loopOut b (n + endsCount a) := by
  intro a
  induction a with
  | nil => intro b n; simp [loopOut, endsCount]
  | cons ev r ih =>
    intro b n
    cases ev with
    | textDelta c => simp [loopOut, endsCount, ih, List.append_assoc]
    | toolStart name => simp [loopOut, endsCount, ih]
    | toolEnd name i o =>
      have harith : n + 1 + endsCount r = n + (endsCount r + 1) := by omega
      simp [loopOut, endsCount, ih, harith]
    | other => simp [loopOut, endsCount, ih]

lemma wfB_append : ∀ (a : List StreamEvent) (s : List String)
    (b : List StreamEvent), wfB s (a ++ b) = true →
    wfB s a = true ∧ wfB (finalStarted s a) b = true := by
  intro a
  induction a with
  | nil =>
    intro s b h
    exact ⟨rfl, h⟩
  | cons ev r ih =>
    intro s b h
    cases ev with
    | textDelta c =>
      simp only [List.cons_append, wfB] at h ⊢
      simpa [finalStarted] using ih s b h
    | toolStart name =>
      simp only [List.cons_append, wfB, Bool.and_eq_true] at h ⊢
      obtain ⟨h1, h2⟩ := h
      obtain ⟨h3, h4⟩ := ih (s ++ [name]) b h2
      have hne : name ∉ s := by
        simpa [Bool.not_eq_true', decide_eq_false_iff_not] using h1
      have hadd : setAdd s name = s ++ [name] := by simp [setAdd, hne]
      exact ⟨⟨h1, h3⟩, by simpa [finalStarted, hadd] using h4⟩
    | toolEnd name i o =>
      simp only [List.cons_append, wfB, Bool.and_eq_true] at h ⊢
      obtain ⟨h1, h2⟩ := h
      obtain ⟨h3, h4⟩ := ih (s.erase name) b h2
      exact ⟨⟨h1, h3⟩, by simpa [finalStarted] using h4⟩
    | other =>
      simp only [List.cons_append, wfB] at h ⊢
      simpa [finalStarted] using ih s b h

lemma mem_finalStarted (N : String) :
    ∀ (evs : List StreamEvent) (s : List String),
      endCountN N evs = 0 → (N ∈ s ∨ 0 < startCount N evs) →
      N ∈ finalStarted s evs := by
  intro evs
  induction evs with
  | nil =>
    intro s _ hin
    rcases hin with h | h
    · exact h
    · simp [startCount] at h
  | cons ev r ih =>
    intro s hend hin
    cases ev with
    | textDelta c =>
      simp only [endCountN] at hend
      simp only [startCount] at hin
      exact ih s hend hin
    | toolStart name =>
      simp only [endCountN] at hend
      simp only [startCount] at hin
      simp only [finalStarted]
      by_cases hname : name = N
      · subst hname
        refine ih (setAdd s name) hend (Or.inl ?_)
        by_cases hs : name ∈ s
        · simp [setAdd, hs]
        · simp [setAdd, hs]
      · refine ih (setAdd s name) hend ?_
        rcases hin with h | h
        · refine Or.inl ?_
          by_cases hs : name ∈ s
          · simpa [setAdd, hs] using h
          · simp [setAdd, hs, List.mem_append, h]
        · simp only [if_neg hname, Nat.zero_add] at h
          exact Or.inr h
    | toolEnd name i o =>
      simp only [endCountN] at hend
      simp only [startCount] at hin
      simp only [finalStarted]
      have hname : name ≠ N := by
        intro hcon
        subst hcon
        simp at hend
      have hend' : endCountN N r = 0 := by
        simp only [if_neg hname] at hend
        omega
      refine ih (s.erase name) hend' ?_
      rcases hin with h | h
      · exact Or.inl ((List.mem_erase_of_ne (Ne.symm hname)).mpr h)
      · exact Or.inr h
    | other =>
      simp only [endCountN] at hend
      simp only [startCount] at hin
      exact ih s hend hin

lemma failed_notMem_loopOut (N : String) (hN : noApos N = true) :
    ∀ (evs : List StreamEvent) (n : Nat), allNoApos (namesOf evs) = true →
      OutItem.status (failedMsg N) true ∉ loopOut evs n := by
  intro evs
  induction evs with
  | nil => intro n _; simp [loopOut]
  | cons ev r ih =>
    intro n hnames
    cases ev with
    | textDelta c =>
      simp only [namesOf] at hnames
      simp only [loopOut]
      intro hmem
      rcases List.mem_append.mp hmem with h | h
      · cases c with
        | none => simp at h
        | some str =>
          by_cases hstr : str = "" <;> simp [hstr] at h
      · exact ih n hnames h
    | toolStart name =>
      simp only [namesOf, allNoApos, List.all_cons, Bool.and_eq_true] at hnames
      simp only [loopOut]
      intro hmem
      rcases List.mem_cons.mp hmem with h | h
      · simp at h
      rcases List.mem_cons.mp h with h' | h'
      · simp at h'
      · exact ih n hnames.2 h'
    | toolEnd name i o =>
      simp only [namesOf, allNoApos, List.all_cons, Bool.and_eq_true] at hnames
      simp only [loopOut]
      intro hmem
      rcases List.mem_cons.mp hmem with h | h
      · have heq : failedMsg N = returnedMsg name o := by
          simpa [OutItem.status.injEq] using h
        exact returned_ne_failed hnames.1 hN heq.symm
      rcases List.mem_cons.mp h with h' | h'
      · simp at h'
      · exact ih (n + 1) hnames.2 h'
    | other =>
      simp only [namesOf] at hnames
      simp only [loopOut]
      exact ih n hnames

lemma no_citation_for (N : String) :
    ∀ (evs : List StreamEvent) (n : Nat), endCountN N evs = 0 →
      ∀ u c, OutItem.citation u N c ∉ loopOut evs n := by
  intro evs
  induction evs with
  | nil => intro n _ u c; simp [loopOut]
  | cons ev r ih =>
    intro n hend u c
    cases ev with
    | textDelta ch =>
      simp only [endCountN] at hend
      simp only [loopOut]
      intro hmem
      rcases List.mem_append.mp hmem with h | h
      · cases ch with
        | none => simp at h
        | some str =>
          by_cases hstr : str = "" <;> simp [hstr] at h
      · exact ih n hend u c h
    | toolStart name =>
      simp only [endCountN] at hend
      simp only [loopOut]
      intro hmem
      rcases List.mem_cons.mp hmem with h | h
      · simp at h
      rcases List.mem_cons.mp h with h' | h'
      · simp at h'
      · exact ih n hend u c h'
    | toolEnd name i o =>
      simp only [endCountN] at hend
      have hname : name ≠ N := by
        intro hcon
        subst hcon
        simp at hend
      have hend' : endCountN N r = 0 := by
        simp only [if_neg hname] at hend
        omega
      simp only [loopOut]
      intro hmem
      rcases List.mem_cons.mp hmem with h | h
      · simp at h
      rcases List.mem_cons.mp h with h' | h'
      · simp only [OutItem.citation.injEq] at h'
        exact hname h'.2.1.symm
      · exact ih (n + 1) hend' u c h'
    | other =>
      simp only [endCountN] at hend
      simp only [loopOut]
      exact ih n hend u c

lemma citation_notMem_reconOut (s : List String) (u t c : String) :
    OutItem.citation u t c ∉ reconOut s := by
  simp [reconOut]

lemma yieldedTexts_cons_text (s : String) (tr : List OutItem) :
    yieldedTexts (OutItem.text s :: tr) = s :: yieldedTexts tr := rfl

lemma yieldedTexts_cons_status (m : String) (d : Bool) (tr : List OutItem) :
    yieldedTexts (OutItem.status m d :: tr) = yieldedTexts tr := rfl

lemma yieldedTexts_cons_citation (u t c : String) (tr : List OutItem) :
    yieldedTexts (OutItem.citation u t c :: tr) = yieldedTexts tr := rfl

lemma citsOf_cons_text (s : String) (tr : List OutItem) :
    citsOf (OutItem.text s :: tr) = citsOf tr := rfl

lemma citsOf_cons_status (m : String) (d : Bool) (tr : List OutItem) :
    citsOf (OutItem.status m d :: tr) = citsOf tr := rfl

lemma citsOf_cons_citation (u t c : String) (tr : List OutItem) :
    citsOf (OutItem.citation u t c :: tr) = (u, t, c) :: citsOf tr := rfl

lemma reconOut_cons (name : String) (rest : List String) :
    reconOut (name :: rest) =
      OutItem.status (failedMsg name) true :: reconOut rest := rfl

lemma yieldedTexts_loopOut : ∀ (evs : List StreamEvent) (n : Nat),
    yieldedTexts (loopOut evs n) = textBits evs := by
  intro evs
  induction evs with
  | nil => intro n; rfl
  | cons ev r ih =>
    intro n
    cases ev with
    | textDelta c =>
      cases c with
      | none =>
        simp only [loopOut, textBits, List.nil_append]
        exact ih n
      | some str =>
        by_cases hstr : str = ""
        · simp only [loopOut, textBits, hstr, if_pos rfl, List.nil_append]
          exact ih n
        · simp only [loopOut, textBits, if_neg hstr, List.singleton_append,
            yieldedTexts_cons_text]
          rw [ih n]
    | toolStart name =>
      simp only [loopOut, textBits, yieldedTexts_cons_text,
        yieldedTexts_cons_status]
      rw [ih n]
    | toolEnd name i o =>
      simp only [loopOut, textBits, yieldedTexts_cons_status,
        yieldedTexts_cons_citation]
      exact ih (n + 1)
    | other =>
      simp only [loopOut, textBits]
      exact ih n

lemma yieldedTexts_reconOut : ∀ s : List String,
    yieldedTexts (reconOut s) = [] := by
  intro s
  induction s with
  | nil => rfl
  | cons name rest ih =>
    rw [reconOut_cons, yieldedTexts_cons_status, ih]

lemma yieldedTexts_append (a b : List OutItem) :
    yieldedTexts (a ++ b) = yieldedTexts a ++ yieldedTexts b := by
  simp [yieldedTexts, List.filterMap_append]

lemma nonEmptyDeltas_sublist : ∀ evs : List StreamEvent,
    List.Sublist (nonEmptyDeltas evs) (textBits evs) := by
  intro evs
  induction evs with
  | nil => exact List.Sublist.refl _
  | cons ev r ih =>
    cases ev with
    | textDelta c =>
      cases c with
      | none => exact ih
      | some str =>
        by_cases hstr : str = ""
        · simpa [nonEmptyDeltas, textBits, hstr] using ih
        · simpa [nonEmptyDeltas, textBits, hstr] using ih.cons₂ str
    | toolStart name =>
      simp only [nonEmptyDeltas, textBits]
      exact ih.cons "\n"
    | toolEnd name i o => exact ih
    | other => exact ih

lemma citsOf_loopOut : ∀ (evs : List StreamEvent) (n : Nat),
    citsOf (loopOut evs n) = withCallIdx n (endTriples evs) := by
  intro evs
  induction evs with
  | nil => intro n; rfl
  | cons ev r ih =>
    intro n
    cases ev with
    | textDelta c =>
      cases c with
      | none =>
        simp only [loopOut, endTriples, List.nil_append]
        exact ih n
      | some str =>
        by_cases hstr : str = ""
        · simp only [loopOut, endTriples, hstr, if_pos rfl, List.nil_append]
          exact ih n
        · simp only [loopOut, endTriples, if_neg hstr, List.singleton_append,
            citsOf_cons_text]
          exact ih n
    | toolStart name =>
      simp only [loopOut, endTriples, citsOf_cons_text, citsOf_cons_status]
      exact ih n
    | toolEnd name i o =>
      simp only [loopOut, endTriples, citsOf_cons_status, citsOf_cons_citation,
        withCallIdx]
      rw [ih (n + 1)]
    | other =>
      simp only [loopOut, endTriples]
      exact ih n

lemma citsOf_reconOut : ∀ s : List String, citsOf (reconOut s) = [] := by
  intro s
  induction s with
  | nil => rfl
  | cons name rest ih =>
    rw [reconOut_cons, citsOf_cons_status, ih]

lemma citsOf_append (a b : List OutItem) :
    citsOf (a ++ b) = citsOf a ++ citsOf b := by
  simp [citsOf, List.filterMap_append]

lemma startCount_pos_mem_names (N : String) :
    ∀ evs : List StreamEvent, 0 < startCount N evs → N ∈ namesOf evs := by
  intro evs
  induction evs with
  | nil => intro h; simp [startCount] at h
  | cons ev r ih =>
    intro h
    cases ev with
    | textDelta c => exact ih h
    | toolStart name =>
      simp only [startCount] at h
      by_cases hname : name = N
      · subst hname; simp [namesOf]
      · simp only [if_neg hname, Nat.zero_add] at h
        simp [namesOf, ih h]
    | toolEnd name i o =>
      simp only [startCount] at h
      simp [namesOf, ih h]
    | other => exact ih h

lemma loopEvents_append (e : Option Emitter) :
    ∀ (a b : List StreamEvent) (n : Nat) (s : List String),
      (loopEvents e a n s).err = none →
      loopEvents e (a ++ b) n s =
        { trace := (loopEvents e a n s).trace ++
            (loopEvents e b (loopEvents e a n s).num
              (loopEvents e a n s).started).trace,
          num := (loopEvents e b (loopEvents e a n s).num
            (loopEvents e a n s).started).num,
          started := (loopEvents e b (loopEvents e a n s).num
            (loopEvents e a n s).started).started,
          err := (loopEvents e b (loopEvents e a n s).num
            (loopEvents e a n s).started).err } := by
  intro a
  induction a with
  | nil =>
    intro b n s _
    rfl
  | cons ev r ih =>
    intro b n s herr
    cases ev with
    | textDelta c =>
      simp only [List.cons_append, loopEvents, List.append_eq] at herr ⊢
      rw [ih b n s herr]
      simp [List.append_assoc]
    | toolStart name =>
      by_cases hc : notifyStep e (OutItem.status (runningMsg name) false) = true
      · simp only [List.cons_append, loopEvents, hc, if_true,
          List.append_eq] at herr ⊢
        rw [ih b n (setAdd s name) herr]
      · simp only [List.cons_append, loopEvents, hc, if_false] at herr
        simp at herr
    | toolEnd name i o =>
      by_cases hc1 : notifyStep e (OutItem.status (returnedMsg name o) true) = true
      · by_cases hc2 : notifyStep e
            (OutItem.citation (callUrl (n + 1)) name (citationBody name i o)) = true
        · by_cases hmem : name ∈ s
          · simp only [List.cons_append, loopEvents, hc1, hc2, hmem, if_true,
              List.append_eq] at herr ⊢
            rw [ih b (n + 1) (s.erase name) herr]
          · simp only [List.cons_append, loopEvents, hc1, hc2, hmem, if_true,
              if_false] at herr
            simp at herr
        · simp only [List.cons_append, loopEvents, hc1, hc2, if_true,
            if_false] at herr
          simp at herr
      · simp only [List.cons_append, loopEvents, hc1, if_false] at herr
        simp at herr
    | other =>
      simp only [List.cons_append, loopEvents] at herr ⊢
      exact ih b n s herr

lemma loopEvents_drop_other (e : Option Emitter) :
    ∀ (pre post : List StreamEvent) (n : Nat) (s : List String),
      loopEvents e (pre ++ StreamEvent.other :: post) n s =
        loopEvents e (pre ++ post) n s := by
  intro pre
  induction pre with
  | nil =>
    intro post n s
    rfl
  | cons ev r ih =>
    intro post n s
    cases ev with
    | textDelta c => simp only [List.cons_append, loopEvents, List.append_eq, ih]
    | toolStart name => simp only [List.cons_append, loopEvents, List.append_eq, ih]
    | toolEnd name i o => simp only [List.cons_append, loopEvents, List.append_eq, ih]
    | other => simp only [List.cons_append, loopEvents, List.append_eq, ih]

/-- C1: on a well-formed stream (engine contract: a tool starts only while
inactive and ends only while active) processed without notifier failures,
every tool name that receives a `ToolStarted` event receives exactly one
terminal (`done=true`) status notification per started instance — a
"returned" message or a "failed." message — by the time the turn completes,
and never a second one for that instance; with a single start, exactly one. -/
theorem c1_unique_terminal_status (e : Option Emitter) (evs : List StreamEvent)
    (N : String) (hok : noFail e) (hwf : wfB [] evs = true)
    (hnames : allNoApos (namesOf evs) = true)
    (hstart : 0 < startCount N evs) :
    List.countP (isTerminalFor N) (toolsPhase e evs).1 = startCount N evs := by
  have hN : noApos N = true :=
    mem_noApos hnames (startCount_pos_mem_names N evs hstart)
  simp only [toolsPhase_eq e hok evs hwf]
  have h := countP_terminal_loop N evs 0 [] hwf List.nodup_nil hnames rfl hN
  simpa using h

/-- Witness for C1 at a concrete one-tool stream. -/
theorem c1_unique_terminal_status_witness :
    List.countP (isTerminalFor "calc")
        (toolsPhase none [StreamEvent.toolStart "calc",
          StreamEvent.toolEnd "calc" "2" "4"]).1
      = startCount "calc" [StreamEvent.toolStart "calc",
          StreamEvent.toolEnd "calc" "2" "4"] :=
  c1_unique_terminal_status none
    [StreamEvent.toolStart "calc", StreamEvent.toolEnd "calc" "2" "4"] "calc"
    (fun _ => rfl) (by decide) (by decide) (by decide)

/-- C3: if a well-formed stream starts tool N and ends without any terminal
event for N, then after the loop output (and only there, in the
reconciliation segment that runs after the stream is exhausted) the notifier
receives the status `Tool 'N' failed.` with `done=true`, the failed status
never occurs among the items produced while the stream was still running,
and no citation is ever emitted for N. -/
theorem c3_abandoned_tool_reconciliation (e : Option Emitter)
    (evs : List StreamEvent) (N : String) (hok : noFail e)
    (hwf : wfB [] evs = true) (hnames : allNoApos (namesOf evs) = true)
    (hstart : 0 < startCount N evs) (hend : endCountN N evs = 0) :
    (toolsPhase e evs).1 = loopOut evs 0 ++ reconOut (finalStarted [] evs) ∧
    OutItem.status (failedMsg N) true ∈ reconOut (finalStarted [] evs) ∧
    OutItem.status (failedMsg N) true ∉ loopOut evs 0 ∧
    (∀ u c, OutItem.citation u N c ∉ (toolsPhase e evs).1) := by
  have hN : noApos N = true :=
    mem_noApos hnames (startCount_pos_mem_names N evs hstart)
  have htrace : (toolsPhase e evs).1
      = loopOut evs 0 ++ reconOut (finalStarted [] evs) := by
    simp only [toolsPhase_eq e hok evs hwf]
  refine ⟨htrace, ?_, ?_, ?_⟩
  · exact List.mem_map_of_mem _ (mem_finalStarted N evs [] hend (Or.inr hstart))
  · exact failed_notMem_loopOut N hN evs 0 hnames
  · intro u c
    rw [htrace]
    intro hmem
    rcases List.mem_append.mp hmem with h | h
    · exact no_citation_for N evs 0 hend u c h
    · exact citation_notMem_reconOut _ u N c h

/-- Witness for C3 at a concrete stream that starts a tool and ends. -/
theorem c3_abandoned_tool_reconciliation_witness :
    (toolsPhase none [StreamEvent.textDelta (some "x"),
        StreamEvent.toolStart "web"]).1
      = loopOut [StreamEvent.textDelta (some "x"), StreamEvent.toolStart "web"] 0
        ++ reconOut (finalStarted []
            [StreamEvent.textDelta (some "x"), StreamEvent.toolStart "web"]) ∧
    OutItem.status (failedMsg "web") true ∈ reconOut (finalStarted []
        [StreamEvent.textDelta (some "x"), StreamEvent.toolStart "web"]) ∧
    OutItem.status (failedMsg "web") true ∉ loopOut
        [StreamEvent.textDelta (some "x"), StreamEvent.toolStart "web"] 0 ∧
    (∀ u c, OutItem.citation u "web" c ∉ (toolsPhase none
        [StreamEvent.textDelta (some "x"), StreamEvent.toolStart "web"]).1) :=
  c3_abandoned_tool_reconciliation none
    [StreamEvent.textDelta (some "x"), StreamEvent.toolStart "web"] "web"
    (fun _ => rfl) (by decide) (by decide) (by decide) (by decide)

/-- C4 (corrected): the loop preserves the order of text deltas and drops
none of the non-empty ones — the yielded text fragments are exactly the
non-empty chunk contents in stream order, interleaved with one `"\n"`
separator per tool start — but a delta whose content is the empty string is
filtered out by the truthiness test at line 231, so the claim's "no delta
dropped" fails for empty deltas. -/
theorem c4_text_order (e : Option Emitter) (evs : List StreamEvent)
    (hok : noFail e) (hwf : wfB [] evs = true) :
    yieldedTexts (toolsPhase e evs).1 = textBits evs ∧
    List.Sublist (nonEmptyDeltas evs) (yieldedTexts (toolsPhase e evs).1) := by
  have h1 : yieldedTexts (toolsPhase e evs).1 = textBits evs := by
    simp only [toolsPhase_eq e hok evs hwf]
    rw [yieldedTexts_append, yieldedTexts_loopOut, yieldedTexts_reconOut,
      List.append_nil]
  exact ⟨h1, h1 ▸ nonEmptyDeltas_sublist evs⟩

/-- Witness for C4 (amended) at a concrete stream. -/
theorem c4_text_order_witness :
    yieldedTexts (toolsPhase none [StreamEvent.textDelta (some "a"),
        StreamEvent.toolStart "t", StreamEvent.toolEnd "t" "1" "2",
        StreamEvent.textDelta (some "b")]).1
      = textBits [StreamEvent.textDelta (some "a"), StreamEvent.toolStart "t",
          StreamEvent.toolEnd "t" "1" "2", StreamEvent.textDelta (some "b")] ∧
    List.Sublist (nonEmptyDeltas [StreamEvent.textDelta (some "a"),
        StreamEvent.toolStart "t", StreamEvent.toolEnd "t" "1" "2",
        StreamEvent.textDelta (some "b")])
      (yieldedTexts (toolsPhase none [StreamEvent.textDelta (some "a"),
        StreamEvent.toolStart "t", StreamEvent.toolEnd "t" "1" "2",
        StreamEvent.textDelta (some "b")]).1) :=
  c4_text_order none [StreamEvent.textDelta (some "a"), StreamEvent.toolStart "t",
    StreamEvent.toolEnd "t" "1" "2", StreamEvent.textDelta (some "b")]
    (fun _ => rfl) (by decide)

/-- Counterexample to C4 as stated: a stream whose deltas are "a", "", "b"
yields only "a", "b" — the empty-content delta is dropped, so the yields do
not equal the received delta sequence. -/
theorem c4_counterexample :
    deltaContents [StreamEvent.textDelta (some "a"),
        StreamEvent.textDelta (some ""), StreamEvent.textDelta (some "b")]
      = ["a", "", "b"] ∧
    yieldedTexts (toolsPhase none [StreamEvent.textDelta (some "a"),
        StreamEvent.textDelta (some ""), StreamEvent.textDelta (some "b")]).1
      = ["a", "b"] ∧
    yieldedTexts (toolsPhase none [StreamEvent.textDelta (some "a"),
        StreamEvent.textDelta (some ""), StreamEvent.textDelta (some "b")]).1
      ≠ deltaContents [StreamEvent.textDelta (some "a"),
        StreamEvent.textDelta (some ""), StreamEvent.textDelta (some "b")] := by
  refine ⟨by decide, by decide, by decide⟩

/-- C5: on a failure-free well-formed run, the citations emitted are exactly
one per `on_tool_end` event in completion order, and the k-th one (1-based,
across all tool names) carries the source identifier `Tool call k`, the
completing tool's name as title, and the inputs/outputs content string. -/
theorem c5_citation_numbering (e : Option Emitter) (evs : List StreamEvent)
    (hok : noFail e) (hwf : wfB [] evs = true) :
    citsOf (toolsPhase e evs).1 = withCallIdx 0 (endTriples evs) := by
  simp only [toolsPhase_eq e hok evs hwf]
  rw [citsOf_append, citsOf_loopOut, citsOf_reconOut, List.append_nil]

/-- Witness for C5 at a concrete two-tool stream. -/
theorem c5_citation_numbering_witness :
    citsOf (toolsPhase none [StreamEvent.toolStart "a",
        StreamEvent.toolEnd "a" "1" "2", StreamEvent.toolStart "b",
        StreamEvent.toolEnd "b" "3" "4"]).1
      = withCallIdx 0 (endTriples [StreamEvent.toolStart "a",
          StreamEvent.toolEnd "a" "1" "2", StreamEvent.toolStart "b",
          StreamEvent.toolEnd "b" "3" "4"]) :=
  c5_citation_numbering none [StreamEvent.toolStart "a",
    StreamEvent.toolEnd "a" "1" "2", StreamEvent.toolStart "b",
    StreamEvent.toolEnd "b" "3" "4"] (fun _ => rfl) (by decide)

/-- C6: whenever the loop processes an `on_tool_start` event, the single
`"\n"` separator fragment is yielded to the output immediately before (and
always before) the corresponding `Running tool {name}` status call with
`done=false`; the two effects are adjacent in the observable trace, in that
fixed order. -/
theorem c6_separator_before_status (e : Option Emitter)
    (pre post : List StreamEvent) (N : String) (hok : noFail e)
    (hwf : wfB [] (pre ++ StreamEvent.toolStart N :: post) = true) :
    ∃ B, (toolsPhase e (pre ++ StreamEvent.toolStart N :: post)).1 =
      loopOut pre 0 ++
        OutItem.text "\n" :: OutItem.status (runningMsg N) false :: B := by
  simp only [toolsPhase_eq e hok _ hwf]
  rw [loopOut_append]
  refine ⟨loopOut post (0 + endsCount pre) ++
    reconOut (finalStarted [] (pre ++ StreamEvent.toolStart N :: post)), ?_⟩
  simp [loopOut, List.append_assoc]

/-- Witness for C6 at a concrete stream. -/
theorem c6_separator_before_status_witness :
    ∃ B, (toolsPhase none [StreamEvent.textDelta (some "x"),
        StreamEvent.toolStart "calc", StreamEvent.toolEnd "calc" "1" "2"]).1 =
      loopOut [StreamEvent.textDelta (some "x")] 0 ++
        OutItem.text "\n" :: OutItem.status (runningMsg "calc") false :: B :=
  c6_separator_before_status none [StreamEvent.textDelta (some "x")]
    [StreamEvent.toolEnd "calc" "1" "2"] "calc" (fun _ => rfl) (by decide)

/-- C8: an `on_tool_end` whose name is not in the active set (an end without
a start, or a second end for the same name) makes `started_tools.remove`
raise `KeyError`, aborting the turn — the reconciliation loop does not run
and later events are not processed — but the returned status and the
citation for that end event are still emitted before the abort. -/
theorem c8_unmatched_tool_end (e : Option Emitter)
    (pre post : List StreamEvent) (N i o : String) (hok : noFail e)
    (hwf : wfB [] pre = true) (hmem : N ∉ finalStarted [] pre) :
    toolsPhase e (pre ++ StreamEvent.toolEnd N i o :: post) =
      (loopOut pre 0 ++ [OutItem.status (returnedMsg N o) true,
        OutItem.citation (callUrl (endsCount pre + 1)) N (citationBody N i o)],
       some (PipeError.keyError N)) := by
  have h1 := loopEvents_eq e hok pre 0 [] hwf
  have happ := loopEvents_append e pre (StreamEvent.toolEnd N i o :: post) 0 []
    (by rw [h1])
  unfold toolsPhase
  rw [happ, h1]
  simp only [loopEvents, hok _, if_true, if_neg hmem, Nat.zero_add]

/-- Witness for C8: an end event with no matching start. -/
theorem c8_unmatched_tool_end_witness :
    toolsPhase none ([StreamEvent.textDelta (some "x")] ++
        StreamEvent.toolEnd "calc" "1" "2" :: [StreamEvent.textDelta (some "y")]) =
      (loopOut [StreamEvent.textDelta (some "x")] 0 ++
        [OutItem.status (returnedMsg "calc" "2") true,
          OutItem.citation (callUrl (endsCount [StreamEvent.textDelta (some "x")] + 1))
            "calc" (citationBody "calc" "1" "2")],
       some (PipeError.keyError "calc")) :=
  c8_unmatched_tool_end none [StreamEvent.textDelta (some "x")]
    [StreamEvent.textDelta (some "y")] "calc" "1" "2" (fun _ => rfl)
    (by decide) (by decide)

lemma reconcile_fail (em : Emitter) : ∀ (s1 : List String) (N : String)
    (s2 : List String),
    (∀ M ∈ s1, em.emitOk (OutItem.status (failedMsg M) true) = true) →
    em.emitOk (OutItem.status (failedMsg N) true) = false →
    reconcile (some em) (s1 ++ N :: s2) =
      (reconOut s1 ++ [OutItem.status (failedMsg N) true],
       some PipeError.emitterError) := by
  intro s1
  induction s1 with
  | nil =>
    intro N s2 _ hfail
    have hc : ¬ notifyStep (some em) (OutItem.status (failedMsg N) true) = true := by
      simp [notifyStep, hfail]
    simp [reconcile, if_neg hc, reconOut]
  | cons M rest ih =>
    intro N s2 hok hfail
    have hM : notifyStep (some em) (OutItem.status (failedMsg M) true) = true :=
      hok M (by simp)
    have hrest : ∀ M' ∈ rest,
        em.emitOk (OutItem.status (failedMsg M') true) = true :=
      fun M' h => hok M' (by simp [h])
    have hstep : reconcile (some em) (M :: (rest ++ N :: s2)) =
        (OutItem.status (failedMsg M) true ::
            (reconcile (some em) (rest ++ N :: s2)).1,
         (reconcile (some em) (rest ++ N :: s2)).2) := by
      simp [reconcile, hM]
    rw [List.cons_append, hstep, ih N s2 hrest hfail]
    simp [reconOut_cons, List.append_assoc]

/-- C2 (corrected): `send_status` and `send_citation` await the host emitter
with no exception handling, so a raising notifier call propagates out of the
async generator and aborts the turn at that call — remaining events are not
processed, the reconciliation loop is skipped (or cut short when the raise
happens inside it), and only the items produced before the failure stand.
The four conjuncts cover every notifier call site of the tools path: the
running status of a tool start, the returned status of a tool end, the
citation of a tool end, and a failed status of the reconciliation loop. -/
theorem c2_notifier_failure_aborts (em : Emitter) :
    (∀ (pre post : List StreamEvent) (N : String),
      (loopEvents (some em) pre 0 []).err = none →
      em.emitOk (OutItem.status (runningMsg N) false) = false →
      toolsPhase (some em) (pre ++ StreamEvent.toolStart N :: post) =
        ((loopEvents (some em) pre 0 []).trace ++
          [OutItem.text "\n", OutItem.status (runningMsg N) false],
         some PipeError.emitterError)) ∧
    (∀ (pre post : List StreamEvent) (N i o : String),
      (loopEvents (some em) pre 0 []).err = none →
      em.emitOk (OutItem.status (returnedMsg N o) true) = false →
      toolsPhase (some em) (pre ++ StreamEvent.toolEnd N i o :: post) =
        ((loopEvents (some em) pre 0 []).trace ++
          [OutItem.status (returnedMsg N o) true],
         some PipeError.emitterError)) ∧
    (∀ (pre post : List StreamEvent) (N i o : String),
      (loopEvents (some em) pre 0 []).err = none →
      em.emitOk (OutItem.status (returnedMsg N o) true) = true →
      em.emitOk (OutItem.citation
        (callUrl ((loopEvents (some em) pre 0 []).num + 1)) N
        (citationBody N i o)) = false →
      toolsPhase (some em) (pre ++ StreamEvent.toolEnd N i o :: post) =
        ((loopEvents (some em) pre 0 []).trace ++
          [OutItem.status (returnedMsg N o) true,
           OutItem.citation
             (callUrl ((loopEvents (some em) pre 0 []).num + 1)) N
             (citationBody N i o)],
         some PipeError.emitterError)) ∧
    (∀ (evs : List StreamEvent) (s1 : List String) (N : String)
        (s2 : List String),
      (loopEvents (some em) evs 0 []).err = none →
      (loopEvents (some em) evs 0 []).started = s1 ++ N :: s2 →
      (∀ M ∈ s1, em.emitOk (OutItem.status (failedMsg M) true) = true) →
      em.emitOk (OutItem.status (failedMsg N) true) = false →
      toolsPhase (some em) evs =
        ((loopEvents (some em) evs 0 []).trace ++
          (reconOut s1 ++ [OutItem.status (failedMsg N) true]),
         some PipeError.emitterError)) := by
  refine ⟨?_, ?_, ?_, ?_⟩
  · intro pre post N hpre hfail
    have happ := loopEvents_append (some em) pre
      (StreamEvent.toolStart N :: post) 0 [] hpre
    unfold toolsPhase
    rw [happ]
    have hc : ¬ notifyStep (some em)
        (OutItem.status (runningMsg N) false) = true := by
      simp [notifyStep, hfail]
    simp only [loopEvents, if_neg hc]
  · intro pre post N i o hpre hfail
    have happ := loopEvents_append (some em) pre
      (StreamEvent.toolEnd N i o :: post) 0 [] hpre
    unfold toolsPhase
    rw [happ]
    have hc : ¬ notifyStep (some em)
        (OutItem.status (returnedMsg N o) true) = true := by
      simp [notifyStep, hfail]
    simp only [loopEvents, if_neg hc]
  · intro pre post N i o hpre hok hfail
    have happ := loopEvents_append (some em) pre
      (StreamEvent.toolEnd N i o :: post) 0 [] hpre
    unfold toolsPhase
    rw [happ]
    have hc1 : notifyStep (some em)
        (OutItem.status (returnedMsg N o) true) = true := hok
    have hc2 : ¬ notifyStep (some em) (OutItem.citation
        (callUrl ((loopEvents (some em) pre 0 []).num + 1)) N
        (citationBody N i o)) = true := by
      simp [notifyStep, hfail]
    simp only [loopEvents, hc1, if_true, if_neg hc2]
  · intro evs s1 N s2 herr hstarted hok1 hfail
    unfold toolsPhase
    simp only [herr, hstarted, reconcile_fail em s1 N s2 hok1 hfail]

/-- Witness for the corrected C2 statement: the probe emitter makes each of
the four notifier call sites raise on its own concrete stream. -/
theorem c2_notifier_failure_aborts_witness :
    toolsPhase (some probeEmitter) ([] ++ StreamEvent.toolStart "t" :: []) =
      ((loopEvents (some probeEmitter) [] 0 []).trace ++
        [OutItem.text "\n", OutItem.status (runningMsg "t") false],
       some PipeError.emitterError) ∧
    toolsPhase (some probeEmitter)
        ([] ++ StreamEvent.toolEnd "u" "1" "2" :: []) =
      ((loopEvents (some probeEmitter) [] 0 []).trace ++
        [OutItem.status (returnedMsg "u" "2") true],
       some PipeError.emitterError) ∧
    toolsPhase (some probeEmitter)
        ([] ++ StreamEvent.toolEnd "v" "3" "4" :: []) =
      ((loopEvents (some probeEmitter) [] 0 []).trace ++
        [OutItem.status (returnedMsg "v" "4") true,
         OutItem.citation
           (callUrl ((loopEvents (some probeEmitter) [] 0 []).num + 1))
           "v" (citationBody "v" "3" "4")],
       some PipeError.emitterError) ∧
    toolsPhase (some probeEmitter) [StreamEvent.toolStart "w"] =
      ((loopEvents (some probeEmitter) [StreamEvent.toolStart "w"] 0 []).trace ++
        (reconOut [] ++ [OutItem.status (failedMsg "w") true]),
       some PipeError.emitterError) :=
  ⟨(c2_notifier_failure_aborts probeEmitter).1 [] [] "t" rfl (by decide),
   (c2_notifier_failure_aborts probeEmitter).2.1 [] [] "u" "1" "2"
     rfl (by decide),
   (c2_notifier_failure_aborts probeEmitter).2.2.1 [] [] "v" "3" "4"
     rfl (by decide) (by decide),
   (c2_notifier_failure_aborts probeEmitter).2.2.2 [StreamEvent.toolStart "w"]
     [] "w" [] (by decide) (by decide) (by simp) (by decide)⟩

/-- Counterexample to C2 as stated: with an emitter that raises on status
calls, the turn aborts with the emitter's exception and the delta "hello"
that follows the failing call is never yielded — the text stream does not
continue and conclude normally. -/
theorem c2_counterexample :
    (toolsPhase (some ⟨none, fun c =>
        match c with
        | OutItem.status _ _ => false
        | _ => true⟩)
      [StreamEvent.toolStart "t", StreamEvent.textDelta (some "hello")]).2
      = some PipeError.emitterError ∧
    OutItem.text "hello" ∉ (toolsPhase (some ⟨none, fun c =>
        match c with
        | OutItem.status _ _ => false
        | _ => true⟩)
      [StreamEvent.toolStart "t", StreamEvent.textDelta (some "hello")]).1 := by
  refine ⟨rfl, by decide⟩

/-- C7: the guard at line 170 makes a `function_calling` task return before
any model call, yield, or notifier activity: the output is empty, no
notifier call is made, no streaming invocation happens, and no error is
raised, regardless of messages, model, emitter, or tools. -/
theorem c7_function_calling_guard (a : PipeArgs)
    (h : a.task = some "function_calling") :
    pipe a = ⟨[], none, none⟩ := by
  simp [pipe, h]

/-- Witness for C7 at a fully populated request. -/
theorem c7_function_calling_guard_witness :
    pipe ⟨some "function_calling",
        some ⟨some [CellVal.dictVal [("chat_id", "C"), ("message_id", "M")]],
          fun _ => true⟩,
        true, "title", ["d1", "d2"],
        [StreamEvent.toolStart "t", StreamEvent.textDelta (some "x")],
        [("user", "hi")], "gpt-4o"⟩
      = ⟨[], none, none⟩ :=
  c7_function_calling_guard _ rfl

/-- C10: an event whose kind is none of `on_chat_model_stream`,
`on_tool_start`, `on_tool_end` falls through every branch of the dispatch:
deleting it from the stream changes nothing — no output fragment, no
notifier call, and the tool-call counter, the active set and the error
status are identical. -/
theorem c10_unknown_events_are_noops (e : Option Emitter)
    (pre post : List StreamEvent) (n : Nat) (s : List String) :
    loopEvents e (pre ++ StreamEvent.other :: post) n s =
      loopEvents e (pre ++ post) n s :=
  loopEvents_drop_other e pre post n s

lemma extractLoop_fst : ∀ cells : List CellVal,
    (extractLoop cells).1 = (firstDict cells).bind (fun d => dictGet d "chat_id") := by
  intro cells
  induction cells with
  | nil => rfl
  | cons cv rest ih =>
    cases cv with
    | dictVal d => rfl
    | otherVal => simpa [extractLoop, firstDict] using ih

/-- C9: the run id tagged onto the streaming backend invocation is exactly
the first component of `extract_event_info`, which is the `"chat_id"` entry
of the first dict-valued closure cell of the emitter (despite the receiving
variable being called `message_id` at line 169); when the emitter is absent
or has no closure, `extract_event_info` returns `(none, none)` and the run
id is therefore `none`. -/
theorem c9_run_id_correlation (a : PipeArgs)
    (h1 : a.task ≠ some "function_calling")
    (h2 : a.task ≠ some "title_generation") :
    (pipe a).runId = some ((extract_event_info a.emitter).1) ∧
    (extract_event_info a.emitter).1 = chatIdOfFirstDictCell a.emitter ∧
    (a.emitter = none → extract_event_info a.emitter = (none, none)) ∧
    (∀ em, a.emitter = some em → em.closure = none →
      extract_event_info a.emitter = (none, none)) := by
  refine ⟨?_, ?_, ?_, ?_⟩
  · by_cases hT : a.hasTools = false
    · simp [pipe, h1, h2, hT]
    · simp [pipe, h1, h2, hT]
  · cases hE : a.emitter with
    | none => rfl
    | some em =>
      cases hC : em.closure with
      | none => simp [extract_event_info, chatIdOfFirstDictCell, hC]
      | some cells =>
        simp [extract_event_info, chatIdOfFirstDictCell, hC, extractLoop_fst]
  · intro h
    rw [h]
    rfl
  · intro em hem hC
    rw [hem]
    simp [extract_event_info, hC]

/-- Witness for C9 at a concrete emitter whose second closure cell is the
request-info dict. -/
theorem c9_run_id_correlation_witness :
    (pipe ⟨none,
        some ⟨some [CellVal.otherVal,
          CellVal.dictVal [("message_id", "M"), ("chat_id", "C")]],
          fun _ => true⟩,
        false, "title", ["d"], [], [("user", "hi")], "gpt-4o"⟩).runId
      = some ((extract_event_info (some ⟨some [CellVal.otherVal,
          CellVal.dictVal [("message_id", "M"), ("chat_id", "C")]],
          fun _ => true⟩)).1) ∧
    (extract_event_info (some ⟨some [CellVal.otherVal,
        CellVal.dictVal [("message_id", "M"), ("chat_id", "C")]],
        fun _ => true⟩)).1
      = chatIdOfFirstDictCell (some ⟨some [CellVal.otherVal,
          CellVal.dictVal [("message_id", "M"), ("chat_id", "C")]],
          fun _ => true⟩) ∧
    ((some ⟨some [CellVal.otherVal,
        CellVal.dictVal [("message_id", "M"), ("chat_id", "C")]],
        fun _ => true⟩ : Option Emitter) = none →
      extract_event_info (some ⟨some [CellVal.otherVal,
        CellVal.dictVal [("message_id", "M"), ("chat_id", "C")]],
        fun _ => true⟩) = (none, none)) ∧
    (∀ em, (some ⟨some [CellVal.otherVal,
        CellVal.dictVal [("message_id", "M"), ("chat_id", "C")]],
        fun _ => true⟩ : Option Emitter) = some em → em.closure = none →
      extract_event_info (some ⟨some [CellVal.otherVal,
        CellVal.dictVal [("message_id", "M"), ("chat_id", "C")]],
        fun _ => true⟩) = (none, none)) :=
  c9_run_id_correlation ⟨none,
      some ⟨some [CellVal.otherVal,
        CellVal.dictVal [("message_id", "M"), ("chat_id", "C")]],
        fun _ => true⟩,
      false, "title", ["d"], [], [("user", "hi")], "gpt-4o"⟩
    (by decide) (by decide)

end ReactPipe
